import Mathlib

/-!
Verification of the ISS dashboard's refresh/history subsystem
(`iss_dashboard.py`): the TLE name-match scan of `fetch_iss_tle`, and the
history-buffer merge performed by `update_position`
(`pd.concat([...]).drop_duplicates().tail(20)`), together with the
error-propagation behaviour of a refresh cycle.

Modelling choices:
* Text is embedded as `List Char`; Python `str.strip` is modelled with
  `Char.isWhitespace` (covers the whitespace the feed can contain).
* A `PositionFix`'s coordinates are scalars whose only role in the history
  logic is equality testing, so they are embedded as integers; the
  timestamp as a natural number.
* The network and the orbital propagator are external collaborators: the
  HTTP response is a parameter (`Except TransportError text`), and
  `get_current_iss_position`, which delegates wholesale to skyfield and
  installs no exception handler, is a parameter
  `propagate : line → line → Except PropagationError PositionFix`; an
  error value returned by it models the exception the library raises,
  and `CycleResult.escapedError` records an exception that escapes
  `update_position` uncaught.
-/

set_option autoImplicit false

namespace ISSDash

/-- Transport-level failure of the HTTP GET (`requests.exceptions.RequestException`,
which also covers timeouts and `raise_for_status`). -/
inductive TransportError where
  | requestException
deriving DecidableEq

/-- Failure of the orbital propagation (skyfield raising on malformed TLE
lines or numerical failure). -/
inductive PropagationError where
  | invalid
deriving DecidableEq

/-- A timestamped geodetic fix: the row appended to `tracking_data`
(timestamp, latitude, longitude, altitude).  Only equality of the fields
matters to the history logic, so coordinates are embedded as integers. -/
structure PositionFix where
  timestamp : Nat
  latitude : Int
  longitude : Int
  altitude : Int
deriving DecidableEq

/-- Python `list.startswith` on character lists: `startsWithSeq p s` is
true when `p` is an initial segment of `s`. -/
def startsWithSeq : List Char → List Char → Bool
  | [], _ => true
  | _ :: _, [] => false
  | p :: ps, c :: cs => p == c && startsWithSeq ps cs

/-- Python substring test `pat in s` on character lists. -/
def containsSeq (pat : List Char) : List Char → Bool
  | [] => pat.isEmpty
  | c :: rest => startsWithSeq pat (c :: rest) || containsSeq pat rest

/-- Python `str.strip()`: drop leading and trailing whitespace. -/
def strip (s : List Char) : List Char :=
  ((s.dropWhile Char.isWhitespace).reverse.dropWhile Char.isWhitespace).reverse

/-- Helper of `splitLines`: accumulates the current line in `acc` and emits
it at each separator and at the end of the text. -/
def splitLinesAux : List Char → List Char → List (List Char)
  | acc, [] => [acc]
  | acc, c :: cs =>
      if c = '\n' then acc :: splitLinesAux [] cs
      else splitLinesAux (acc ++ [c]) cs

/-- Python `str.split('\n')`. -/
def splitLines (s : List Char) : List (List Char) :=
  splitLinesAux [] s

/-- The substring pattern `'ISS'` of the scan in `fetch_iss_tle`. -/
def issPattern : List Char := "ISS".toList

/-- The substring pattern `'ZARYA'` of the scan in `fetch_iss_tle`. -/
def zaryaPattern : List Char := "ZARYA".toList

/-- The line test of `fetch_iss_tle`:
`'ISS' in line.upper() or 'ZARYA' in line.upper()`. -/
def matchesObjectLine (line : List Char) : Bool :=
  containsSeq issPattern (line.map Char.toUpper) ||
    containsSeq zaryaPattern (line.map Char.toUpper)

/-- The scanning loop of `fetch_iss_tle`: iterate over `rest` (the lines
from index `i` on, with `allLines` the full line list); on a matching line
with two following lines, return those two lines stripped; otherwise keep
scanning. -/
def scanAux (allLines : List (List Char)) : Nat → List (List Char) →
    Option (List Char × List Char)
  | _, [] => none
  | i, line :: rest =>
      if matchesObjectLine line then
        if i + 2 < allLines.length then
          some (strip (allLines.getD (i + 1) []), strip (allLines.getD (i + 2) []))
        else scanAux allLines (i + 1) rest
      else scanAux allLines (i + 1) rest

/-- The element-line scan of `fetch_iss_tle` applied to the full line list. -/
def scanLines (lines : List (List Char)) : Option (List Char × List Char) :=
  scanAux lines 0 lines

/-- `fetch_iss_tle`: on a transport error the exception handler reports to
`st.error` and returns `None`; on success the body text is stripped, split
into lines and scanned. -/
def fetch_iss_tle (response : Except TransportError (List Char)) :
    Option (List Char × List Char) :=
  match response with
  | Except.error _ => none
  | Except.ok text => scanLines (splitLines (strip text))

/-- Index of the first line satisfying `matchesObjectLine`, used to state
the specification's description of the scan ("locates the first match
only"). -/
def firstMatchIdx : List (List Char) → Option Nat
  | [] => none
  | l :: ls => if matchesObjectLine l then some 0 else (firstMatchIdx ls).map (· + 1)

/-- Modelled from the spec: the scan as the specification words it — locate
the first matching line and, when at least two lines follow it, return the
two lines immediately following it (stripped); otherwise fail. -/
def scanSpec (lines : List (List Char)) : Option (List Char × List Char) :=
  match firstMatchIdx lines with
  | none => none
  | some k =>
      if k + 2 < lines.length then
        some (strip (lines.getD (k + 1) []), strip (lines.getD (k + 2) []))
      else none

/-- Helper of `dropDuplicates`: `seen` holds the rows already emitted; a row
equal to one already seen is skipped, any other row is emitted and recorded. -/
def dropDupAux {α : Type} [DecidableEq α] : List α → List α → List α
  | _, [] => []
  | seen, x :: xs => if x ∈ seen then dropDupAux seen xs else x :: dropDupAux (x :: seen) xs

/-- What the scan returns once the index of the first matching line is
known: the two following stripped lines when they exist, otherwise
nothing. -/
def scanAtIdx (allLines : List (List Char)) (i : Nat) : Option Nat →
    Option (List Char × List Char)
  | none => none
  | some k =>
      if i + k + 2 < allLines.length then
        some (strip (allLines.getD (i + k + 1) []), strip (allLines.getD (i + k + 2) []))
      else none

/-- Pandas `drop_duplicates()` on the row list: keep the first occurrence of
each row, in order. -/
def dropDuplicates {α : Type} [DecidableEq α] (l : List α) : List α :=
  dropDupAux [] l

/-- Pandas `tail(20)`: the last (at most) twenty rows. -/
def tail20 {α : Type} (l : List α) : List α :=
  l.drop (l.length - 20)

/-- The merge of line 98-100 of the source:
`pd.concat([tracking_data, new_row]).drop_duplicates().tail(20)`. -/
def mergeFix (buf : List PositionFix) (f : PositionFix) : List PositionFix :=
  tail20 (dropDuplicates (buf ++ [f]))

/-- Modelled from the spec: the merge as the specification words it —
append the new fix, then remove any prior entries that are exact
duplicates of the new entry (so the newly appended entry is the one
retained), then truncate to the most recent twenty. -/
def refMergeSpec (buf : List PositionFix) (f : PositionFix) : List PositionFix :=
  tail20 ((buf.filter (fun g => decide (g ≠ f))) ++ [f])

/-- Insertion step of the table sort (`sort_values('timestamp', ascending=False)`). -/
def insertDesc (f : PositionFix) : List PositionFix → List PositionFix
  | [] => [f]
  | g :: gs => if f.timestamp ≤ g.timestamp then g :: insertDesc f gs else f :: g :: gs

/-- The newest-first table sort of line 132 of the source. -/
def sortByTimestampDesc (l : List PositionFix) : List PositionFix :=
  l.foldr insertDesc []

/-- The dashboard state visible across refresh cycles: the
`st.session_state.tracking_data` history and the content last written to
the three placeholders (map, telemetry, table); `none` models a
still-empty placeholder. -/
structure DashState where
  tracking_data : List PositionFix
  map_view : Option (List PositionFix)
  telemetry_view : Option PositionFix
  table_view : Option (List PositionFix)
deriving DecidableEq

/-- The state at session start: empty `tracking_data` DataFrame, empty
placeholders. -/
def initState : DashState :=
  ⟨[], none, none, none⟩

/-- The outcome of one call to `update_position`: the state afterwards,
and the exception (if any) that escaped the call uncaught. -/
structure CycleResult where
  state : DashState
  escapedError : Option PropagationError
deriving DecidableEq

/-- `update_position`: fetch the TLE; if the fetch returned `None`
(transport error or no element lines found) do nothing; otherwise call the
propagator — whose exceptions are not caught anywhere in the call chain,
so they escape — and on success merge the new fix into the history and
rewrite the three placeholders. -/
def update_position
    (propagate : List Char → List Char → Except PropagationError PositionFix)
    (response : Except TransportError (List Char))
    (s : DashState) : CycleResult :=
  match fetch_iss_tle response with
  | none => ⟨s, none⟩
  | some (line1, line2) =>
      match propagate line1 line2 with
      | Except.error e => ⟨s, some e⟩
      | Except.ok position =>
          let newData := mergeFix s.tracking_data position
          ⟨⟨newData, some newData, some position, some (sortByTimestampDesc newData)⟩,
            none⟩

/-- A sequence of successful refresh cycles, seen at the buffer level:
fold the merge over the fixes the cycles produce. -/
def runMerges (buf : List PositionFix) (fixes : List PositionFix) : List PositionFix :=
  fixes.foldl mergeFix buf

/-- A concrete fetched text whose first line is the ISS header. -/
def demoText : List Char := "ISS (ZARYA)\n1 25544U\n2 25544".toList

/-- A concrete fetched text in which an earlier line ("SWISSCUBE 1")
matches the scan before the ISS header does. -/
def swissText : List Char :=
  "SWISSCUBE 1\n1 35932U\n2 35932\nISS (ZARYA)\n1 25544U\n2 25544".toList

/-- A concrete fetched text with no matching line. -/
def noMatchText : List Char := "AQUA\n1 27424U\n2 27424".toList

/-- Sample fix used in witnesses and counterexamples. -/
def pA : PositionFix := ⟨0, 0, 0, 0⟩

/-- Second sample fix, distinct from `pA`. -/
def pB : PositionFix := ⟨1, 0, 0, 0⟩

/-- Twenty-five fixes with pairwise distinct timestamps. -/
def fixes25 : List PositionFix :=
  (List.range 25).map (fun i => ⟨i, 0, 0, 0⟩)

/-- A propagator that always succeeds with `pA`. -/
def propOk : List Char → List Char → Except PropagationError PositionFix :=
  fun _ _ => Except.ok pA

/-- A propagator that always raises, as skyfield does on malformed element
lines. -/
def propFail : List Char → List Char → Except PropagationError PositionFix :=
  fun _ _ => Except.error PropagationError.invalid

section DedupLemmas

variable {α : Type} [DecidableEq α]

/-- Membership in `dropDupAux`: an element appears iff it appears in the
input and was not already seen. -/
theorem mem_dropDupAux (a : α) (l : List α) :
    ∀ seen, a ∈ dropDupAux seen l ↔ a ∈ l ∧ a ∉ seen := by
  induction l with
  | nil => intro seen; simp [dropDupAux]
  | cons x xs ih =>
    intro seen
    by_cases hx : x ∈ seen <;>
      by_cases hax : a = x <;>
        simp only [dropDupAux, if_pos, if_neg, hx, List.mem_cons, ih,
          not_false_eq_true, not_or] <;>
      subst_eqs <;> tauto

/-- The output of `dropDupAux` has no duplicates. -/
theorem nodup_dropDupAux (l : List α) :
    ∀ seen, (dropDupAux seen l).Nodup := by
  induction l with
  | nil => intro seen; simp [dropDupAux]
  | cons x xs ih =>
    intro seen
    by_cases hx : x ∈ seen
    · simpa [dropDupAux, hx] using ih seen
    · simp only [dropDupAux, if_neg hx, List.nodup_cons]
      refine ⟨fun hmem => ?_, ih (x :: seen)⟩
      exact ((mem_dropDupAux x xs (x :: seen)).mp hmem).2 (List.mem_cons_self x seen)

/-- On a duplicate-free input disjoint from `seen`, `dropDupAux` is the
identity. -/
theorem dropDupAux_eq_self (l : List α) :
    ∀ seen, l.Nodup → (∀ a ∈ l, a ∉ seen) → dropDupAux seen l = l := by
  induction l with
  | nil => intro seen _ _; simp [dropDupAux]
  | cons x xs ih =>
    intro seen hnd hdisj
    have hx : x ∉ seen := hdisj x (List.mem_cons_self x xs)
    have hxs : x ∉ xs := (List.nodup_cons.mp hnd).1
    rw [dropDupAux, if_neg hx, ih (x :: seen) (List.nodup_cons.mp hnd).2]
    intro a ha
    simp only [List.mem_cons, not_or]
    exact ⟨fun h => hxs (h ▸ ha), hdisj a (List.mem_cons_of_mem x ha)⟩

/-- Appending one element before `dropDupAux`: the element survives exactly
when it is new. -/
theorem dropDupAux_append_singleton (a : α) (l : List α) :
    ∀ seen, dropDupAux seen (l ++ [a]) =
      if a ∈ seen ∨ a ∈ l then dropDupAux seen l else dropDupAux seen l ++ [a] := by
  induction l with
  | nil =>
    intro seen
    by_cases ha : a ∈ seen <;> simp [dropDupAux, ha]
  | cons x xs ih =>
    intro seen
    by_cases hx : x ∈ seen
    · rw [List.cons_append, dropDupAux, if_pos hx, ih seen, dropDupAux, if_pos hx]
      by_cases hxa : a = x
      · subst hxa
        simp [hx]
      · simp only [List.mem_cons, hxa, false_or]
    · rw [List.cons_append, dropDupAux, if_neg hx, ih (x :: seen), dropDupAux, if_neg hx]
      have hcond : (a ∈ x :: seen ∨ a ∈ xs) ↔ (a ∈ seen ∨ a ∈ x :: xs) := by
        simp only [List.mem_cons]
        tauto
      by_cases h : a ∈ seen ∨ a ∈ x :: xs
      · rw [if_pos (hcond.mpr h), if_pos h]
      · rw [if_neg (fun hc => h (hcond.mp hc)), if_neg h, List.cons_append]

/-- Membership is preserved by `dropDuplicates`. -/
theorem mem_dropDuplicates (a : α) (l : List α) :
    a ∈ dropDuplicates l ↔ a ∈ l := by
  simp [dropDuplicates, mem_dropDupAux]

/-- The output of `dropDuplicates` has no duplicates. -/
theorem nodup_dropDuplicates (l : List α) : (dropDuplicates l).Nodup :=
  nodup_dropDupAux l []

/-- On a duplicate-free list `dropDuplicates` is the identity. -/
theorem dropDuplicates_eq_self {l : List α} (h : l.Nodup) :
    dropDuplicates l = l :=
  dropDupAux_eq_self l [] h (by simp)

/-- Appending one element before `dropDuplicates`: kept iff new. -/
theorem dropDuplicates_append_singleton (a : α) (l : List α) :
    dropDuplicates (l ++ [a]) =
      if a ∈ l then dropDuplicates l else dropDuplicates l ++ [a] := by
  rw [dropDuplicates, dropDupAux_append_singleton a l []]
  simp [dropDuplicates]

end DedupLemmas

section Tail20Lemmas

variable {α : Type}

/-- `tail20` keeps at most twenty rows. -/
theorem length_tail20_le (l : List α) : (tail20 l).length ≤ 20 := by
  simp only [tail20, List.length_drop]
  omega

/-- `tail20` does nothing below capacity. -/
theorem tail20_eq_self {l : List α} (h : l.length ≤ 20) : tail20 l = l := by
  simp only [tail20, Nat.sub_eq_zero_of_le h, List.drop_zero]

/-- `tail20` is a suffix, hence a sublist. -/
theorem tail20_sublist (l : List α) : (tail20 l).Sublist l :=
  List.drop_sublist _ l

/-- Truncating, appending one element, and truncating again is the same as
appending and truncating once. -/
theorem tail20_append_singleton (l : List α) (a : α) :
    tail20 (tail20 l ++ [a]) = tail20 (l ++ [a]) := by
  unfold tail20
  rcases le_or_lt l.length 20 with h | h
  · rw [Nat.sub_eq_zero_of_le h, List.drop_zero]
  · have hlen : (List.drop (l.length - 20) l).length = 20 := by
      rw [List.length_drop]; omega
    have hlen2 : (List.drop (l.length - 20) l ++ [a]).length = 21 := by
      simp [hlen]
    rw [hlen2]
    have e1 : List.drop (21 - 20) (List.drop (l.length - 20) l ++ [a]) =
        List.drop 1 (List.drop (l.length - 20) l) ++ [a] :=
      List.drop_append_of_le_length (by omega)
    rw [e1, List.drop_drop]
    have e2 : (l ++ [a]).length - 20 = l.length - 19 := by
      simp only [List.length_append, List.length_cons, List.length_nil]
      omega
    rw [e2]
    have e3 : List.drop (l.length - 19) (l ++ [a]) =
        List.drop (l.length - 19) l ++ [a] :=
      List.drop_append_of_le_length (by omega)
    rw [e3]
    have e4 : l.length - 20 + 1 = l.length - 19 := by omega
    rw [e4]

end Tail20Lemmas

section MergeLemmas

/-- The merge never leaves more than twenty rows. -/
theorem mergeFix_length_le (buf : List PositionFix) (f : PositionFix) :
    (mergeFix buf f).length ≤ 20 :=
  length_tail20_le _

/-- The merge always leaves a duplicate-free buffer. -/
theorem mergeFix_nodup (buf : List PositionFix) (f : PositionFix) :
    (mergeFix buf f).Nodup :=
  List.Nodup.sublist (tail20_sublist _) (nodup_dropDuplicates _)

/-- Merging a fix not yet present into a duplicate-free buffer appends it
and truncates. -/
theorem mergeFix_of_nodup_of_not_mem {buf : List PositionFix} {f : PositionFix}
    (h1 : buf.Nodup) (h2 : f ∉ buf) :
    mergeFix buf f = tail20 (buf ++ [f]) := by
  rw [mergeFix, dropDuplicates_append_singleton, if_neg h2, dropDuplicates_eq_self h1]

/-- Merging a fix already present into a duplicate-free buffer only
truncates: the prior entry is the one retained, in place. -/
theorem mergeFix_of_nodup_of_mem {buf : List PositionFix} {f : PositionFix}
    (h1 : buf.Nodup) (h2 : f ∈ buf) :
    mergeFix buf f = tail20 buf := by
  rw [mergeFix, dropDuplicates_append_singleton, if_pos h2, dropDuplicates_eq_self h1]

/-- Unfolding one cycle of `runMerges`. -/
theorem runMerges_cons (buf : List PositionFix) (f : PositionFix)
    (fs : List PositionFix) :
    runMerges buf (f :: fs) = runMerges (mergeFix buf f) fs :=
  rfl

/-- Unfolding the last cycle of `runMerges`. -/
theorem runMerges_append_singleton (buf : List PositionFix)
    (fs : List PositionFix) (f : PositionFix) :
    runMerges buf (fs ++ [f]) = mergeFix (runMerges buf fs) f := by
  simp [runMerges, List.foldl_append]

/-- Capacity invariant: from a buffer within capacity, any sequence of
successful cycles stays within capacity. -/
theorem runMerges_length_le (fixes : List PositionFix) :
    ∀ buf : List PositionFix, buf.length ≤ 20 → (runMerges buf fixes).length ≤ 20 := by
  induction fixes with
  | nil => intro buf h; exact h
  | cons f fs ih =>
    intro buf _
    rw [runMerges_cons]
    exact ih _ (mergeFix_length_le buf f)

/-- Deduplication invariant: from a duplicate-free buffer, any sequence of
successful cycles keeps the buffer duplicate-free. -/
theorem runMerges_nodup (fixes : List PositionFix) :
    ∀ buf : List PositionFix, buf.Nodup → (runMerges buf fixes).Nodup := by
  induction fixes with
  | nil => intro buf h; exact h
  | cons f fs ih =>
    intro buf _
    rw [runMerges_cons]
    exact ih _ (mergeFix_nodup buf f)

/-- Feeding pairwise-distinct fixes from the empty buffer yields exactly
the most recent twenty of them, in order. -/
theorem runMerges_eq_tail20 {fixes : List PositionFix} (h : fixes.Nodup) :
    runMerges [] fixes = tail20 fixes := by
  induction fixes using List.reverseRecOn with
  | nil => rfl
  | append_singleton fs f ih =>
    have hsplit := List.nodup_append.mp h
    have hfs : fs.Nodup := hsplit.1
    have hf : f ∉ fs := fun hm => hsplit.2.2 hm (List.mem_singleton.mpr rfl)
    rw [runMerges_append_singleton, ih hfs]
    have htl : (tail20 fs).Nodup := List.Nodup.sublist (tail20_sublist fs) hfs
    have hftl : f ∉ tail20 fs := fun hm => hf ((tail20_sublist fs).subset hm)
    rw [mergeFix_of_nodup_of_not_mem htl hftl, tail20_append_singleton]

end MergeLemmas

section ScanLemmas

/-- Once fewer than three lines remain reachable by index, the scanning
loop can no longer return: every later inner bound check fails. -/
theorem scanAux_none_of_ge (allLines : List (List Char)) :
    ∀ (rest : List (List Char)) (i : Nat), allLines.length ≤ i + 2 →
      scanAux allLines i rest = none := by
  intro rest
  induction rest with
  | nil => intro i _; rfl
  | cons line rest ih =>
    intro i h
    rw [scanAux]
    by_cases hm : matchesObjectLine line
    · rw [if_pos hm, if_neg (by omega)]
      exact ih (i + 1) (by omega)
    · rw [if_neg hm]
      exact ih (i + 1) (by omega)

/-- Characterization of the scanning loop: its result is determined by the
index of the first matching line among the remaining lines. -/
theorem scanAux_eq_scanAtIdx (allLines : List (List Char)) :
    ∀ (rest : List (List Char)) (i : Nat),
      scanAux allLines i rest = scanAtIdx allLines i (firstMatchIdx rest) := by
  intro rest
  induction rest with
  | nil => intro i; rfl
  | cons line rest ih =>
    intro i
    by_cases hm : matchesObjectLine line
    · rw [scanAux, if_pos hm, firstMatchIdx, if_pos hm, scanAtIdx]
      by_cases hlt : i + 2 < allLines.length
      · rw [if_pos hlt, if_pos (by omega : i + 0 + 2 < allLines.length)]
      · rw [if_neg hlt, if_neg (by omega : ¬ i + 0 + 2 < allLines.length)]
        exact scanAux_none_of_ge allLines rest (i + 1) (by omega)
    · rw [scanAux, if_neg hm, firstMatchIdx, if_neg hm, ih (i + 1)]
      cases hfm : firstMatchIdx rest with
      | none => rfl
      | some k =>
        show scanAtIdx allLines (i + 1) (some k) = scanAtIdx allLines i (some (k + 1))
        rw [scanAtIdx, scanAtIdx]
        have e : i + 1 + k = i + (k + 1) := by omega
        rw [e]

/-- A first-match index points inside the list, at a matching line. -/
theorem firstMatchIdx_spec (ls : List (List Char)) :
    ∀ k, firstMatchIdx ls = some k →
      k < ls.length ∧ matchesObjectLine (ls.getD k []) = true := by
  induction ls with
  | nil => intro k h; simp [firstMatchIdx] at h
  | cons l ls ih =>
    intro k h
    rw [firstMatchIdx] at h
    by_cases hm : matchesObjectLine l
    · rw [if_pos hm] at h
      cases h
      simpa using hm
    · rw [if_neg hm] at h
      cases hfm : firstMatchIdx ls with
      | none => rw [hfm] at h; cases h
      | some q =>
        rw [hfm] at h
        obtain ⟨h1, h2⟩ := ih q hfm
        have hk : k = q + 1 := (Option.some.inj h).symm
        subst hk
        refine ⟨by simpa using Nat.succ_lt_succ h1, ?_⟩
        simpa [List.getD_cons_succ] using h2

/-- The first matching index is found when a matching line exists with no
earlier matching line. -/
theorem firstMatchIdx_eq_some (ls : List (List Char)) :
    ∀ i, i < ls.length → matchesObjectLine (ls.getD i []) = true →
      (∀ j, j < i → matchesObjectLine (ls.getD j []) = false) →
      firstMatchIdx ls = some i := by
  induction ls with
  | nil => intro i hi; simp at hi
  | cons l ls ih =>
    intro i hi hm hprev
    by_cases hml : matchesObjectLine l
    · cases i with
      | zero => simp [firstMatchIdx, hml]
      | succ q =>
        have h0 := hprev 0 (Nat.succ_pos q)
        rw [List.getD_cons_zero] at h0
        rw [hml] at h0
        cases h0
    · cases i with
      | zero =>
        rw [List.getD_cons_zero] at hm
        exact absurd hm hml
      | succ q =>
        rw [firstMatchIdx, if_neg hml,
          ih q (by simpa using Nat.lt_of_succ_lt_succ hi)
            (by simpa [List.getD_cons_succ] using hm)
            (fun j hj => by simpa [List.getD_cons_succ] using hprev (j + 1) (by omega))]
        rfl

/-- The element-line scan equals its first-match characterization. -/
theorem scanLines_eq_scanAtIdx (lines : List (List Char)) :
    scanLines lines = scanAtIdx lines 0 (firstMatchIdx lines) :=
  scanAux_eq_scanAtIdx lines lines 0

/-- The spec-worded scan equals the same characterization. -/
theorem scanSpec_eq_scanAtIdx (lines : List (List Char)) :
    scanSpec lines = scanAtIdx lines 0 (firstMatchIdx lines) := by
  rw [scanSpec]
  cases firstMatchIdx lines with
  | none => rfl
  | some k => simp [scanAtIdx]

/-- A prefix relation is preserved by appending on the right. -/
theorem startsWithSeq_append (p : List Char) :
    ∀ l t, startsWithSeq p l = true → startsWithSeq p (l ++ t) = true := by
  induction p with
  | nil => intro l t _; rfl
  | cons c cs ih =>
    intro l t h
    cases l with
    | nil => cases h
    | cons x xs =>
      rw [startsWithSeq, Bool.and_eq_true] at h
      rw [List.cons_append, startsWithSeq, Bool.and_eq_true]
      exact ⟨h.1, ih xs t h.2⟩

/-- A substring occurrence is preserved by appending on the right. -/
theorem containsSeq_append (pat : List Char) :
    ∀ l t, containsSeq pat l = true → containsSeq pat (l ++ t) = true := by
  intro l
  induction l with
  | nil =>
    intro t h
    rw [containsSeq] at h
    have hpat : pat = [] := List.isEmpty_iff.mp h
    subst hpat
    cases t with
    | nil => rfl
    | cons c cs => rw [List.nil_append, containsSeq]; rfl
  | cons c cs ih =>
    intro t h
    rw [containsSeq, Bool.or_eq_true] at h
    rw [List.cons_append, containsSeq, Bool.or_eq_true]
    rcases h with h | h
    · exact Or.inl (by simpa using startsWithSeq_append pat (c :: cs) t h)
    · exact Or.inr (ih t h)

end ScanLemmas

section Claims

/-- C1: for every sequence of successful refresh cycles starting from the
empty HistoryBuffer, the buffer never contains more than 20 entries and no
two entries share the same (timestamp, latitude, longitude, altitude)
tuple; after 25 cycles producing fixes with pairwise-distinct timestamps,
the buffer contains exactly the fixes of the 20 most recent cycles, the
oldest 5 evicted. -/
theorem c1_history_bounded_and_deduplicated (fixes : List PositionFix) :
    (runMerges [] fixes).length ≤ 20 ∧ (runMerges [] fixes).Nodup ∧
      ((fixes.map PositionFix.timestamp).Nodup → fixes.length = 25 →
        runMerges [] fixes = fixes.drop 5) := by
  refine ⟨runMerges_length_le fixes [] (by simp),
    runMerges_nodup fixes [] List.nodup_nil, fun hts hlen => ?_⟩
  have hnd : fixes.Nodup := List.Nodup.of_map _ hts
  rw [runMerges_eq_tail20 hnd, tail20, hlen]

/-- Witness for C1 at 25 concrete fixes with distinct timestamps. -/
theorem c1_witness :
    (fixes25.map PositionFix.timestamp).Nodup ∧ fixes25.length = 25 ∧
      runMerges [] fixes25 = fixes25.drop 5 :=
  ⟨by decide, by decide,
    (c1_history_bounded_and_deduplicated fixes25).2.2 (by decide) (by decide)⟩

/-- C2 counterexample: on a successful fetch whose propagation step
raises, the exception escapes `update_position` uncaught, contradicting
the claim that all three error kinds are caught at the cycle boundary. -/
theorem c2_counterexample :
    (update_position propFail (Except.ok demoText) initState).escapedError =
      some PropagationError.invalid := by
  decide

/-- C2 amended: the two fetch-level error kinds (transport failure and a
source text without usable element lines, both surfacing as a `None`
fetch result) are caught within `update_position` and the cycle returns
normally; a propagation error, however, escapes `update_position`
uncaught. -/
theorem c2_amended_fetch_caught_propagation_escapes
    (propagate : List Char → List Char → Except PropagationError PositionFix)
    (response : Except TransportError (List Char)) (s : DashState) :
    (fetch_iss_tle response = none →
      (update_position propagate response s).escapedError = none) ∧
    (∀ l1 l2 e, fetch_iss_tle response = some (l1, l2) →
      propagate l1 l2 = Except.error e →
      (update_position propagate response s).escapedError = some e) := by
  constructor
  · intro h
    simp [update_position, h]
  · intro l1 l2 e h1 h2
    simp [update_position, h1, h2]

/-- Witness for the amended C2: a transport failure is absorbed, a
propagation failure escapes. -/
theorem c2_amended_witness :
    (update_position propOk (Except.error TransportError.requestException)
        initState).escapedError = none ∧
    (update_position propFail (Except.ok demoText) initState).escapedError =
      some PropagationError.invalid :=
  ⟨(c2_amended_fetch_caught_propagation_escapes propOk
      (Except.error TransportError.requestException) initState).1 rfl,
   (c2_amended_fetch_caught_propagation_escapes propFail
      (Except.ok demoText) initState).2 "1 25544U".toList "2 25544".toList
      PropagationError.invalid (by decide) rfl⟩

/-- C3: a refresh cycle failing with any error kind (fetch returning
`None`, or the propagator raising) leaves `tracking_data` exactly as it
was; in particular after a successful cycle producing `F1` followed by a
transport-failing cycle, the buffer is exactly `[F1]`. -/
theorem c3_failed_cycle_preserves_buffer :
    (∀ (propagate : List Char → List Char → Except PropagationError PositionFix)
       (response : Except TransportError (List Char)) (s : DashState),
       (fetch_iss_tle response = none ∨
         ∃ l1 l2 e, fetch_iss_tle response = some (l1, l2) ∧
           propagate l1 l2 = Except.error e) →
       (update_position propagate response s).state.tracking_data = s.tracking_data) ∧
    (∀ (F1 : PositionFix)
       (propagate2 : List Char → List Char → Except PropagationError PositionFix),
       (update_position propagate2 (Except.error TransportError.requestException)
         (update_position (fun _ _ => Except.ok F1) (Except.ok demoText)
           initState).state).state.tracking_data = [F1]) := by
  constructor
  · intro propagate response s h
    rcases h with h | ⟨l1, l2, e, h1, h2⟩
    · simp [update_position, h]
    · simp [update_position, h1, h2]
  · intro F1 propagate2
    have hf : fetch_iss_tle (Except.ok demoText) =
        some ("1 25544U".toList, "2 25544".toList) := by decide
    have hmerge : mergeFix [] F1 = [F1] := rfl
    have hnone : fetch_iss_tle (Except.error TransportError.requestException) = none := rfl
    simp only [update_position, hf, hnone, initState]
    exact hmerge

/-- Witness for C3: a transport-failing cycle on the initial state, and
the concrete two-cycle scenario with fix `pA`. -/
theorem c3_witness :
    (update_position propOk (Except.error TransportError.requestException)
        initState).state.tracking_data = initState.tracking_data ∧
    (update_position propOk (Except.error TransportError.requestException)
        (update_position (fun _ _ => Except.ok pA) (Except.ok demoText)
          initState).state).state.tracking_data = [pA] :=
  ⟨c3_failed_cycle_preserves_buffer.1 propOk
      (Except.error TransportError.requestException) initState (Or.inl rfl),
   c3_failed_cycle_preserves_buffer.2 pA propOk⟩

/-- C4 counterexample: the code's merge keeps the FIRST occurrence of a
duplicated row (pandas `drop_duplicates()` default), so when the new fix
already occurs earlier in the buffer the resulting order differs from the
spec's algorithm, which retains the newly appended entry at the end. -/
theorem c4_counterexample :
    mergeFix [pA, pB] pA ≠ refMergeSpec [pA, pB] pA := by
  decide

/-- C4 amended: on a duplicate-free buffer the merge equals: if the new
fix already occurs in the buffer, keep the buffer unchanged (the prior
entry is the one retained, in its original position); otherwise append the
new fix at the end; then truncate to the most recent 20 entries. -/
theorem c4_amended_merge_keeps_first_occurrence (buf : List PositionFix)
    (f : PositionFix) (h : buf.Nodup) :
    mergeFix buf f = tail20 (if f ∈ buf then buf else buf ++ [f]) := by
  by_cases hf : f ∈ buf
  · rw [if_pos hf, mergeFix_of_nodup_of_mem h hf]
  · rw [if_neg hf, mergeFix_of_nodup_of_not_mem h hf]

/-- Witness for the amended C4 on a concrete buffer and fix. -/
theorem c4_amended_witness :
    mergeFix [pA] pB = tail20 (if pB ∈ [pA] then [pA] else [pA] ++ [pB]) :=
  c4_amended_merge_keeps_first_occurrence [pA] pB (by decide)

/-- C5: merging the identical PositionFix twice in a row yields a buffer
containing exactly one entry equal to that fix, whatever the starting
buffer. -/
theorem c5_duplicate_suppressed (buf : List PositionFix) (f : PositionFix) :
    (mergeFix (mergeFix buf f) f).count f = 1 := by
  have hnd : (mergeFix buf f).Nodup := mergeFix_nodup buf f
  have hlen : (mergeFix buf f).length ≤ 20 := mergeFix_length_le buf f
  by_cases hf : f ∈ mergeFix buf f
  · rw [mergeFix_of_nodup_of_mem hnd hf, tail20_eq_self hlen]
    exact List.count_eq_one_of_mem hnd hf
  · rw [mergeFix_of_nodup_of_not_mem hnd hf]
    have hnd2 : (mergeFix buf f ++ [f]).Nodup := by
      rw [List.nodup_append]
      exact ⟨hnd, List.nodup_singleton f,
        fun a ha hb => hf ((List.mem_singleton.mp hb) ▸ ha)⟩
    have hmem : f ∈ tail20 (mergeFix buf f ++ [f]) := by
      rw [tail20]
      have hle : (mergeFix buf f ++ [f]).length - 20 ≤ (mergeFix buf f).length := by
        simp only [List.length_append, List.length_cons, List.length_nil]
        omega
      rw [List.drop_append_of_le_length hle]
      exact List.mem_append_right _ (List.mem_singleton.mpr rfl)
    exact List.count_eq_one_of_mem
      (List.Nodup.sublist (tail20_sublist _) hnd2) hmem

/-- C6: the element-line scan equals the spec's first-match algorithm
(locate the first matching line only, return the two lines immediately
following it, stripped); the line matcher is insensitive to case variation
and tolerates trailing whitespace. -/
theorem c6_scan_first_match_case_and_whitespace_robust :
    (∀ text : List Char,
       fetch_iss_tle (Except.ok text) = scanSpec (splitLines (strip text))) ∧
    (∀ l l' : List Char, l.map Char.toUpper = l'.map Char.toUpper →
       matchesObjectLine l = matchesObjectLine l') ∧
    (∀ l ws : List Char, (∀ c ∈ ws, c.isWhitespace = true) →
       matchesObjectLine l = true → matchesObjectLine (l ++ ws) = true) := by
  refine ⟨fun text => ?_, fun l l' h => ?_, fun l ws _ h => ?_⟩
  · show scanLines (splitLines (strip text)) = scanSpec (splitLines (strip text))
    rw [scanLines_eq_scanAtIdx, scanSpec_eq_scanAtIdx]
  · rw [matchesObjectLine, matchesObjectLine, h]
  · rw [matchesObjectLine] at h ⊢
    rw [List.map_append]
    simp only [Bool.or_eq_true] at h ⊢
    rcases h with h | h
    · exact Or.inl (containsSeq_append _ _ _ h)
    · exact Or.inr (containsSeq_append _ _ _ h)

/-- Witness for C6 at a concrete text, a concrete case variant, and a
concrete trailing-whitespace extension. -/
theorem c6_witness :
    fetch_iss_tle (Except.ok demoText) = scanSpec (splitLines (strip demoText)) ∧
    matchesObjectLine "iss (zarya)".toList = matchesObjectLine "ISS (ZARYA)".toList ∧
    matchesObjectLine ("ISS (ZARYA)".toList ++ [' ', '\r']) = true :=
  ⟨c6_scan_first_match_case_and_whitespace_robust.1 demoText,
   c6_scan_first_match_case_and_whitespace_robust.2.1 "iss (zarya)".toList
     "ISS (ZARYA)".toList (by decide),
   c6_scan_first_match_case_and_whitespace_robust.2.2 "ISS (ZARYA)".toList
     [' ', '\r'] (by decide) (by decide)⟩

/-- C7: when no line of the fetched text matches the object name, or no
matching line is followed by at least two further lines, the fetch fails
with its failure value (`None`) rather than returning an element pair. -/
theorem c7_no_usable_match_fails (text : List Char)
    (h : ∀ j, j < (splitLines (strip text)).length →
       matchesObjectLine ((splitLines (strip text)).getD j []) = true →
       ¬ j + 2 < (splitLines (strip text)).length) :
    fetch_iss_tle (Except.ok text) = none := by
  show scanLines (splitLines (strip text)) = none
  rw [scanLines_eq_scanAtIdx]
  cases hfm : firstMatchIdx (splitLines (strip text)) with
  | none => rfl
  | some k =>
    obtain ⟨hk, hmk⟩ := firstMatchIdx_spec (splitLines (strip text)) k hfm
    rw [scanAtIdx, if_neg (by have := h k hk hmk; omega)]

/-- Witness for C7 at a concrete matchless text. -/
theorem c7_witness : fetch_iss_tle (Except.ok noMatchText) = none :=
  c7_no_usable_match_fails noMatchText (by decide)

/-- C8 counterexample: `swissText` contains the line "ISS (ZARYA)" (at
index 3) followed by two element lines, yet the fetch does not return
those two lines — an earlier line ("SWISSCUBE 1") already contains the
substring "ISS", and the scan takes the first match. -/
theorem c8_counterexample :
    (splitLines (strip swissText)).getD 3 [] = "ISS (ZARYA)".toList ∧
    3 + 2 < (splitLines (strip swissText)).length ∧
    fetch_iss_tle (Except.ok swissText) ≠
      some ("1 25544U".toList, "2 25544".toList) := by
  refine ⟨by decide, by decide, by decide⟩

/-- C8 amended: if the source text contains the "ISS (ZARYA)" header
followed by at least two further lines, and no earlier line matches the
scan, the fetch succeeds and returns exactly those two following lines
with surrounding whitespace stripped. -/
theorem c8_amended_header_line_returned (text : List Char) (i : Nat)
    (h1 : (splitLines (strip text)).getD i [] = "ISS (ZARYA)".toList)
    (h2 : i + 2 < (splitLines (strip text)).length)
    (h3 : ∀ j, j < i →
      matchesObjectLine ((splitLines (strip text)).getD j []) = false) :
    fetch_iss_tle (Except.ok text) =
      some (strip ((splitLines (strip text)).getD (i + 1) []),
        strip ((splitLines (strip text)).getD (i + 2) [])) := by
  show scanLines (splitLines (strip text)) = _
  have hm : matchesObjectLine ((splitLines (strip text)).getD i []) = true := by
    rw [h1]; decide
  have hi : i < (splitLines (strip text)).length := by omega
  rw [scanLines_eq_scanAtIdx,
    firstMatchIdx_eq_some (splitLines (strip text)) i hi hm h3, scanAtIdx,
    if_pos (by omega : 0 + i + 2 < (splitLines (strip text)).length)]
  have e1 : 0 + i + 1 = i + 1 := by omega
  have e2 : 0 + i + 2 = i + 2 := by omega
  rw [e1, e2]

/-- Witness for the amended C8 at a concrete text whose first line is the
header. -/
theorem c8_amended_witness :
    fetch_iss_tle (Except.ok demoText) =
      some ("1 25544U".toList, "2 25544".toList) := by
  have h := c8_amended_header_line_returned demoText 0 (by decide) (by decide)
    (fun j hj => absurd hj (Nat.not_lt_zero j))
  rw [h]
  decide

/-- C9 counterexample: two successful cycles that produce the identical
fix leave a buffer of length 1, not 2, although 2 is below capacity — the
deduplication, not only padding or truncation, can make the length differ
from the number of successful fetches. -/
theorem c9_counterexample :
    (2 : Nat) < 20 ∧ (runMerges [] [pA, pA]).length ≠ 2 := by
  decide

/-- C9 amended: for fewer than 20 successful cycles producing
pairwise-distinct fixes, starting from the empty buffer, the buffer length
equals the number of cycles. -/
theorem c9_amended_length_below_capacity (fixes : List PositionFix)
    (h1 : fixes.Nodup) (h2 : fixes.length < 20) :
    (runMerges [] fixes).length = fixes.length := by
  rw [runMerges_eq_tail20 h1, tail20_eq_self (le_of_lt h2)]

/-- Witness for the amended C9 at two distinct fixes. -/
theorem c9_amended_witness : (runMerges [] [pA, pB]).length = 2 :=
  c9_amended_length_below_capacity [pA, pB] (by decide) (by decide)

/-- C10: when the fetch step fails (returns `None`), `update_position`
performs no observable update at all: the buffer and all three
presentation placeholders are left exactly as they were, and nothing
escapes. -/
theorem c10_failed_fetch_updates_nothing
    (propagate : List Char → List Char → Except PropagationError PositionFix)
    (response : Except TransportError (List Char)) (s : DashState)
    (h : fetch_iss_tle response = none) :
    update_position propagate response s = ⟨s, none⟩ := by
  simp [update_position, h]

/-- Witness for C10 at a transport-failing response. -/
theorem c10_witness :
    update_position propOk (Except.error TransportError.requestException)
      initState = ⟨initState, none⟩ :=
  c10_failed_fetch_updates_nothing propOk
    (Except.error TransportError.requestException) initState rfl

end Claims

end ISSDash
